import Mathlib

/-!
Shallow embedding of the Recipe concept (src/src/concepts/Recipe/RecipeConcept.ts).

TypeScript strings are modelled as `List Char`; JavaScript numbers as `Rat`
(the claims under study never depend on floating-point rounding); opaque IDs
(`freshID()`) as natural numbers handed out by a `nextId` counter in the state.
The two MongoDB collections (`Recipe.recipes`, `Recipe.ingredients`) are
modelled as insertion-ordered lists; `findOne`/`updateOne`/`deleteOne` act on
the first matching document, `$in`/`$push`/`$pull`/`$set` as list filtering,
appending and field update.  Every operation returns `Except Str payload`
(the TS `{...} | { error: string }` union) together with the post state.
-/

abbrev Str := List Char

/-- Convert a Lean string literal to the `List Char` representation. -/
def str (s : String) : Str := s.data

/-- Model of `String.prototype.toLowerCase` on the ASCII fragment
(all inputs exercised by the claims are ASCII): the 26 upper-case
letters map to their lower-case forms, everything else is unchanged. -/
def upperLower : List (Char × Char) :=
  [('A', 'a'), ('B', 'b'), ('C', 'c'), ('D', 'd'), ('E', 'e'), ('F', 'f'),
   ('G', 'g'), ('H', 'h'), ('I', 'i'), ('J', 'j'), ('K', 'k'), ('L', 'l'),
   ('M', 'm'), ('N', 'n'), ('O', 'o'), ('P', 'p'), ('Q', 'q'), ('R', 'r'),
   ('S', 's'), ('T', 't'), ('U', 'u'), ('V', 'v'), ('W', 'w'), ('X', 'x'),
   ('Y', 'y'), ('Z', 'z')]

def lowerChar (c : Char) : Char :=
  match upperLower.find? (fun p => p.1 == c) with
  | some p => p.2
  | none => c

def lowerStr (s : Str) : Str := s.map lowerChar

/-- Model of `String.prototype.trim`: strip whitespace from both ends. -/
def trimStr (s : Str) : Str :=
  ((s.dropWhile Char.isWhitespace).reverse.dropWhile Char.isWhitespace).reverse

/-- Model of `String.prototype.split` on a single-character separator.
`"".split(sep)` is `[""]`, matching JavaScript. -/
def splitOnChar (sep : Char) : Str → List Str
  | [] => [[]]
  | c :: cs =>
    let r := splitOnChar sep cs
    if c == sep then [] :: r
    else
      match r with
      | [] => [[c]]
      | h :: t => (c :: h) :: t

/-- All suffixes of a list, longest first, ending with `[]`. -/
def suffixes : Str → List Str
  | [] => [[]]
  | c :: cs => (c :: cs) :: suffixes cs

def prefixMatch : Str → Str → Bool
  | [], _ => true
  | _ :: _, [] => false
  | c :: cs, d :: ds => c == d && prefixMatch cs ds

/-- Substring containment: `q` occurs contiguously inside `t`. -/
def containsSub (q t : Str) : Bool := (suffixes t).any (fun suf => prefixMatch q suf)

/-- Decimal digit run to a natural number. -/
def digitsVal (ds : List Char) : Nat := ds.foldl (fun a c => a * 10 + (c.toNat - 48)) 0

/-- Model of the JavaScript `parseFloat` builtin on finite decimal literals:
leading whitespace is skipped, an optional sign, integer and fraction digit
runs and an optional exponent are read as the longest valid prefix, and the
rest of the string is ignored; `none` models `NaN` (no digits at all).
The `Infinity` literal is not modelled (no claim input uses it). -/
def parseFloatJS (sIn : Str) : Option Rat :=
  let t0 := sIn.dropWhile Char.isWhitespace
  let sgn : Rat × Str :=
    match t0 with
    | '-' :: r => (-1, r)
    | '+' :: r => (1, r)
    | _ => (1, t0)
  let t := sgn.2
  let ip := t.takeWhile Char.isDigit
  let t1 := t.dropWhile Char.isDigit
  let fpRest : Str × Str :=
    match t1 with
    | '.' :: r => (r.takeWhile Char.isDigit, r.dropWhile Char.isDigit)
    | _ => ([], t1)
  let fp := fpRest.1
  let t2 := fpRest.2
  if ip.isEmpty && fp.isEmpty then none
  else
    let mant : Rat := (digitsVal ip : Rat) + (digitsVal fp : Rat) / ((10 : Rat) ^ fp.length)
    let expVal : Int :=
      match t2 with
      | e :: r =>
        if e == 'e' || e == 'E' then
          let esr : Int × Str :=
            match r with
            | '-' :: rr => (-1, rr)
            | '+' :: rr => (1, rr)
            | _ => (1, r)
          let ed := esr.2.takeWhile Char.isDigit
          if ed.isEmpty then 0 else esr.1 * (digitsVal ed : Int)
        else 0
      | [] => 0
    some (sgn.1 * mant * (10 : Rat) ^ expVal)

def natToStr (n : Nat) : Str := (Nat.repr n).data

/-- Mongo `updateOne`: apply `f` to the first element satisfying `p`. -/
def updateFirst (p : α → Bool) (f : α → α) : List α → List α
  | [] => []
  | x :: xs => if p x then f x :: xs else x :: updateFirst p f xs

/-- Mongo `deleteOne`: drop the first element satisfying `p`. -/
def deleteFirst (p : α → Bool) : List α → List α
  | [] => []
  | x :: xs => if p x then xs else x :: deleteFirst p xs

abbrev ID := Nat

structure IngredientDoc where
  _id : ID
  quantity : Rat
  name : Str
  unit : Str
deriving DecidableEq

structure RecipeDoc where
  _id : ID
  owner : ID
  title : Str
  ingredients : List IngredientDoc
  image : Str
  link : Str
  description : Str
  isCopy : Bool
deriving DecidableEq

structure RState where
  recipes : List RecipeDoc
  ingredients : List IngredientDoc
  nextId : ID
deriving DecidableEq

def initState : RState := { recipes := [], ingredients := [], nextId := 0 }

/-- Truthiness of an optional string parameter: `undefined` and `""` are falsy. -/
def truthyOpt : Option Str → Bool
  | none => false
  | some s => !s.isEmpty

def isSchemeTail (c : Char) : Bool := c.isAlphanum || c == '+' || c == '-' || c == '.'

/-- Model of the WHATWG `new URL(link)` constructor used by `isValidLink`:
it succeeds exactly on absolute URLs, modelled here as a non-empty
alphabetic-first scheme run followed by a colon.  The claims only rely on
the facts that the empty string and plain words are rejected and ordinary
`scheme://...` strings are accepted, where this model agrees with the builtin. -/
def isValidLink : Str → Bool
  | [] => false
  | c :: rest => c.isAlpha && ((rest.dropWhile isSchemeTail).head? == some ':')

/-!  ## Mutating operations of `RecipeConcept`  -/

/-- Embedding of `checkRecipeAndOwner` (RecipeConcept.ts lines 87-97). -/
def checkRecipeAndOwner (requestedBy recipe : ID) (s : RState) : Except Str RecipeDoc :=
  match s.recipes.find? (fun d => d._id == recipe) with
  | none => .error (str "Recipe not found")
  | some existing =>
    if existing.owner == requestedBy then .ok existing
    else .error (str "Sorry, you are not the owner of this recipe. You cannot delete the recipe.")

/-- Embedding of `createRecipe` (lines 57-85).  The stored document carries `image := []`
for the absent `image` key: an absent key and `""` are observationally equal
everywhere in the source (`!existing.image`, `existing.image ?? ""`). -/
def createRecipe (owner : ID) (title : Str) (link description : Option Str)
    (s : RState) : Except Str ID × RState :=
  match s.recipes.find? (fun d => d.owner == owner && d.title == title) with
  | some _ =>
    (.error (str "Recipe with title: \"" ++ title ++
      str "\" already exists for this user: " ++ natToStr owner), s)
  | none =>
    if !truthyOpt link && !truthyOpt description then
      (.error (str "Recipe must have at least a link or description!"), s)
    else if truthyOpt link && !isValidLink (link.getD []) then
      (.error (str "Invalid link format!"), s)
    else
      let d : RecipeDoc :=
        { _id := s.nextId, owner := owner, title := title, ingredients := [],
          image := [], link := link.getD [], description := description.getD [],
          isCopy := false }
      (.ok d._id, { s with recipes := s.recipes ++ [d], nextId := s.nextId + 1 })

/-- Embedding of `deleteRecipe` (lines 105-111). -/
def deleteRecipe (requestedBy recipe : ID) (s : RState) : Except Str Unit × RState :=
  match checkRecipeAndOwner requestedBy recipe s with
  | .error e => (.error e, s)
  | .ok _ =>
    (.ok (), { s with recipes := deleteFirst (fun d => d._id == recipe) s.recipes })

/-- Embedding of `addIngredientToRecipe` (lines 120-140). -/
def addIngredientToRecipe (requestedBy recipe ingredient : ID) (s : RState) :
    Except Str Unit × RState :=
  match checkRecipeAndOwner requestedBy recipe s with
  | .error e => (.error e, s)
  | .ok existing =>
    match s.ingredients.find? (fun i => i._id == ingredient) with
    | none => (.error (str "Ingredient not found"), s)
    | some ingredDoc =>
      if existing.ingredients.any (fun ing => ing._id == ingredDoc._id) then
        (.ok (), s)
      else
        let recipes2 := updateFirst (fun d => d._id == recipe) (fun d => { d with ingredients := d.ingredients ++ [ingredDoc] }) s.recipes
      (.ok (), { s with recipes := recipes2 })

/-- Embedding of `removeIngredientFromRecipe` (lines 149-165); `$pull` removes every
array element matching the identifier. -/
def removeIngredientFromRecipe (requestedBy recipe ingredient : ID) (s : RState) :
    Except Str Unit × RState :=
  match checkRecipeAndOwner requestedBy recipe s with
  | .error e => (.error e, s)
  | .ok existing =>
    match s.ingredients.find? (fun i => i._id == ingredient) with
    | none => (.error (str "Ingredient not found"), s)
    | some ingredDoc =>
      if !existing.ingredients.any (fun ing => ing._id == ingredDoc._id) then
        (.error (str "ingredient doesn't exist in this recipe!"), s)
      else
        let recipes2 := updateFirst (fun d => d._id == recipe) (fun d => { d with ingredients := d.ingredients.filter (fun ing => !(ing._id == ingredDoc._id)) }) s.recipes
        (.ok (), { s with recipes := recipes2 })

/-- Embedding of `setLink` (lines 174-184). -/
def setLink (requestedBy recipe : ID) (link : Str) (s : RState) :
    Except Str Unit × RState :=
  match checkRecipeAndOwner requestedBy recipe s with
  | .error e => (.error e, s)
  | .ok _ =>
    if !isValidLink link then (.error (str "Invalid link format!"), s)
    else
      let recipes2 := updateFirst (fun d => d._id == recipe) (fun d => { d with link := link }) s.recipes
      (.ok (), { s with recipes := recipes2 })

/-- Embedding of `removeLink` (lines 193-206). -/
def removeLink (requestedBy recipe : ID) (s : RState) : Except Str Unit × RState :=
  match checkRecipeAndOwner requestedBy recipe s with
  | .error e => (.error e, s)
  | .ok existing =>
    if existing.description.isEmpty || (trimStr existing.description).isEmpty then
      (.error (str "Cannot remove link because the recipe has no description."), s)
    else
      let recipes2 := updateFirst (fun d => d._id == recipe) (fun d => { d with link := [] }) s.recipes
      (.ok (), { s with recipes := recipes2 })

/-- Embedding of `setDescription` (lines 215-225). -/
def setDescription (requestedBy recipe : ID) (description : Str) (s : RState) :
    Except Str Unit × RState :=
  match checkRecipeAndOwner requestedBy recipe s with
  | .error e => (.error e, s)
  | .ok _ =>
    if description.isEmpty || (trimStr description).isEmpty then
      (.error (str "Description must be more than just empty space"), s)
    else
      let recipes2 := updateFirst (fun d => d._id == recipe) (fun d => { d with description := description }) s.recipes
      (.ok (), { s with recipes := recipes2 })

/-- Embedding of `removeDescription` (lines 234-247). -/
def removeDescription (requestedBy recipe : ID) (s : RState) : Except Str Unit × RState :=
  match checkRecipeAndOwner requestedBy recipe s with
  | .error e => (.error e, s)
  | .ok existing =>
    if existing.link.isEmpty then
      (.error (str "Cannot remove description because the recipe has no link."), s)
    else
      let recipes2 := updateFirst (fun d => d._id == recipe) (fun d => { d with description := [] }) s.recipes
      (.ok (), { s with recipes := recipes2 })

/-- Embedding of `setRecipeCopy` (lines 256-262). -/
def setRecipeCopy (requestedBy recipe : ID) (isCopy : Bool) (s : RState) :
    Except Str Unit × RState :=
  match checkRecipeAndOwner requestedBy recipe s with
  | .error e => (.error e, s)
  | .ok _ =>
    let recipes2 := updateFirst (fun d => d._id == recipe) (fun d => { d with isCopy := isCopy }) s.recipes
    (.ok (), { s with recipes := recipes2 })

/-- Embedding of `setImage` (lines 271-277). -/
def setImage (requestedBy recipe : ID) (image : Str) (s : RState) :
    Except Str Unit × RState :=
  match checkRecipeAndOwner requestedBy recipe s with
  | .error e => (.error e, s)
  | .ok _ =>
    let recipes2 := updateFirst (fun d => d._id == recipe) (fun d => { d with image := image }) s.recipes
    (.ok (), { s with recipes := recipes2 })

/-- Embedding of `deleteImage` (lines 286-297). -/
def deleteImage (requestedBy recipe : ID) (s : RState) : Except Str Unit × RState :=
  match checkRecipeAndOwner requestedBy recipe s with
  | .error e => (.error e, s)
  | .ok existing =>
    if existing.image.isEmpty || (trimStr existing.image).isEmpty then
      (.ok (), s)
    else
      let recipes2 := updateFirst (fun d => d._id == recipe) (fun d => { d with image := [] }) s.recipes
      (.ok (), { s with recipes := recipes2 })

/-- Embedding of `copyRecipe` (lines 306-328): no ownership check on the source. -/
def copyRecipe (requestedBy recipe : ID) (s : RState) : Except Str ID × RState :=
  match s.recipes.find? (fun d => d._id == recipe) with
  | none => (.error (str "Recipe not found"), s)
  | some existing =>
    let newRecipe : RecipeDoc :=
      { _id := s.nextId, owner := requestedBy, title := existing.title,
        ingredients := existing.ingredients, link := existing.link,
        description := existing.description, image := existing.image,
        isCopy := true }
    let s1 : RState := { s with recipes := s.recipes ++ [newRecipe], nextId := s.nextId + 1 }
    let recipes2 := updateFirst (fun d => d._id == recipe) (fun d => { d with isCopy := true }) s1.recipes
    (.ok newRecipe._id, { s1 with recipes := recipes2 })

/-- Embedding of `createIngredientHelper` (lines 343-352): inserts into the catalog at once. -/
def createIngredientHelper (name : Str) (quantity : Rat) (unit : Str) (s : RState) :
    IngredientDoc × RState :=
  let d : IngredientDoc :=
    { _id := s.nextId, name := lowerStr name, quantity := quantity, unit := unit }
  (d, { s with ingredients := s.ingredients ++ [d], nextId := s.nextId + 1 })

/-- The per-line loop of `parseIngredients` (lines 369-382): each valid line
creates a catalog ingredient immediately; the first malformed line aborts
with an error, keeping whatever the earlier lines already inserted. -/
def parseIngredientsLoop (s : RState) : List Str → Except Str (List IngredientDoc) × RState
  | [] => (.ok [], s)
  | line :: rest =>
    match splitOnChar ',' line with
    | [q, u, n] =>
      match parseFloatJS q with
      | none => (.error (str "Invalid quantity: " ++ q), s)
      | some quantity =>
        let created := createIngredientHelper n quantity u s
        let r := parseIngredientsLoop created.2 rest
        (r.1.map (fun l => created.1 :: l), r.2)
    | _ => (.error (str "Invalid ingredient format: " ++ line), s)

/-- The line preprocessing of `parseIngredients` (line 367). -/
def recipeLines (text : Str) : List Str :=
  ((splitOnChar '\n' text).map trimStr).filter (fun l => !l.isEmpty)

/-- A line is malformed when it has a field count other than three or a
quantity `parseFloat` turns into `NaN` (lines 371-377). -/
def malformedLine (line : Str) : Bool :=
  match splitOnChar ',' line with
  | [q, _, _] => (parseFloatJS q).isNone
  | _ => true

/-- Embedding of `parseIngredients` (lines 363-385): on success the recipe's embedded
ingredient list is replaced (`$set`) by the freshly created ones. -/
def parseIngredients (requestedBy recipe : ID) (ingredientsText : Str) (s : RState) :
    Except Str (List IngredientDoc) × RState :=
  match checkRecipeAndOwner requestedBy recipe s with
  | .error e => (.error e, s)
  | .ok _ =>
    let r := parseIngredientsLoop s (recipeLines ingredientsText)
    match r.1 with
    | .error e => (.error e, r.2)
    | .ok created =>
      let recipes2 := updateFirst (fun d => d._id == recipe) (fun d => { d with ingredients := created }) r.2.recipes
      (.ok created, { r.2 with recipes := recipes2 })

/-- Embedding of `createIngredient` (lines 392-399). -/
def createIngredient (name : Str) (quantity : Rat) (unit : Str) (s : RState) :
    Except Str IngredientDoc × RState :=
  if name.isEmpty || (trimStr name).isEmpty then
    (.error (str "Ingredient name cannot be empty."), s)
  else
    let created := createIngredientHelper name quantity unit s
    (.ok created.1, created.2)

/-- Embedding of `deleteIngredient` (lines 408-415): touches only the catalog. -/
def deleteIngredient (ingredient : ID) (s : RState) : Except Str Unit × RState :=
  match s.ingredients.find? (fun i => i._id == ingredient) with
  | none => (.error (str "Ingredient not found"), s)
  | some _ =>
    (.ok (), { s with ingredients := deleteFirst (fun i => i._id == ingredient) s.ingredients })

/-- Embedding of `editIngredient` (lines 421-438): empty-string names/units are ignored;
the new name is **not** lowercased here.  Touches only the catalog. -/
def editIngredient (inputIngredient : ID) (newName : Option Str) (newQuantity : Option Rat)
    (newUnit : Option Str) (s : RState) : Except Str Unit × RState :=
  match s.ingredients.find? (fun i => i._id == inputIngredient) with
  | none => (.error (str "Ingredient not found"), s)
  | some _ =>
    let upd : IngredientDoc → IngredientDoc := fun i =>
      let i1 := match newName with
        | some nm => if !nm.isEmpty && !(trimStr nm).isEmpty then { i with name := nm } else i
        | none => i
      let i2 := match newQuantity with
        | some q => { i1 with quantity := q }
        | none => i1
      match newUnit with
      | some un => if !un.isEmpty && !(trimStr un).isEmpty then { i2 with unit := un } else i2
      | none => i2
    let ingredients2 := updateFirst (fun i => i._id == inputIngredient) upd s.ingredients
    (.ok (), { s with ingredients := ingredients2 })

/-!  ## Query operations

The title searches hand the (lowercased) query to MongoDB's `$regex`
operator with option `"i"` **unescaped**.  `$regex` is modelled here on the
PCRE fragment actually reachable through the claims: a pattern is a token
sequence in which `.` matches any character and every other character
matches itself case-insensitively; a title matches when some position of it
starts a match of the whole token sequence.  Patterns containing other PCRE
metacharacters are outside the model (the theorems about `_search` either
hypothesise their absence or use only `.`).
-/

inductive RTok where
  | lit (c : Char)
  | dot
deriving DecidableEq

/-- The lowered query string read as a `$regex` pattern. -/
def parseRegex (pat : Str) : List RTok :=
  pat.map (fun c => if c == '.' then RTok.dot else RTok.lit c)

/-- Case-insensitive token match (the pattern is already lowercased). -/
def tokMatches : RTok → Char → Bool
  | RTok.lit c, d => c == lowerChar d
  | RTok.dot, _ => true

def matchHere : List RTok → Str → Bool
  | [], _ => true
  | _ :: _, [] => false
  | t :: ts, c :: cs => tokMatches t c && matchHere ts cs

def regexSearch (p : List RTok) (t : Str) : Bool :=
  (suffixes t).any (fun suf => matchHere p suf)

/-- The `matchCount` of a recipe against an already-lowercased name set
(lines 469-471 and the identical blocks of the other variants). -/
def matchCount (normalized : List Str) (d : RecipeDoc) : Nat :=
  (d.ingredients.filter (fun ing => normalized.contains (lowerStr ing.name))).length

/-- The `scored` list before sorting: every candidate paired with its `matchCount`,
keeping only strictly positive counts. -/
def scoreFilter (normalized : List Str) (docs : List RecipeDoc) : List (RecipeDoc × Nat) :=
  (docs.map (fun d => (d, matchCount normalized d))).filter (fun e => 0 < e.2)

/-- One insertion step of the stable descending sort modelling
`Array.prototype.sort((a, b) => b.matchCount - a.matchCount)` (ECMAScript
sort is stable): the new element goes after every element of
greater-or-equal count. -/
def insertScored (x : RecipeDoc × Nat) : List (RecipeDoc × Nat) → List (RecipeDoc × Nat)
  | [] => [x]
  | y :: ys => if y.2 < x.2 then x :: y :: ys else y :: insertScored x ys

def sortScoredAux (acc : List (RecipeDoc × Nat)) : List (RecipeDoc × Nat) → List (RecipeDoc × Nat)
  | [] => acc
  | x :: xs => sortScoredAux (insertScored x acc) xs

def sortByCountDesc (l : List (RecipeDoc × Nat)) : List (RecipeDoc × Nat) :=
  sortScoredAux [] l

/-- Embedding of `_findRecipeByIngredient` (lines 459-484). -/
def _findRecipeByIngredient (ingredients : List Str) (s : RState) : Except Str (List ID) :=
  if ingredients.isEmpty then .error (str "Ingredients list cannot be empty.")
  else
    let normalized := ingredients.map lowerStr
    let scored := scoreFilter normalized s.recipes
    if scored.isEmpty then .ok []
    else .ok ((sortByCountDesc scored).map (fun e => e.1._id))

/-- Embedding of `_search` (lines 491-507). -/
def _search (query : Str) (s : RState) : Except Str (List ID) :=
  if query.isEmpty || (trimStr query).isEmpty then .error (str "Query shouldn't be empty")
  else
    let normalized := lowerStr query
    .ok ((s.recipes.filter (fun d => regexSearch (parseRegex normalized) d.title)).map
      (fun d => d._id))

/-- Embedding of `_findRecipeByIngredientWithinRecipes` (lines 514-546); note the empty
ingredient-set validation precedes the empty-candidate short circuit. -/
def _findRecipeByIngredientWithinRecipes (ingredients : List Str) (recipes : List ID)
    (s : RState) : Except Str (List ID) :=
  if ingredients.isEmpty then .error (str "Ingredients list cannot be empty.")
  else if recipes.isEmpty then .ok []
  else
    let normalized := ingredients.map lowerStr
    let recipeDocs := s.recipes.filter (fun d => recipes.contains d._id)
    let scored := scoreFilter normalized recipeDocs
    if scored.isEmpty then .ok []
    else .ok ((sortByCountDesc scored).map (fun e => e.1._id))

/-- Embedding of `_searchWithinRecipes` (lines 553-574). -/
def _searchWithinRecipes (query : Str) (recipes : List ID) (s : RState) :
    Except Str (List ID) :=
  if query.isEmpty || (trimStr query).isEmpty then .error (str "Query shouldn't be empty")
  else if recipes.isEmpty then .ok []
  else
    let normalized := lowerStr query
    .ok ((s.recipes.filter (fun d =>
      recipes.contains d._id && regexSearch (parseRegex normalized) d.title)).map
      (fun d => d._id))

/-- Embedding of `_filterIngredientAndSearch` (lines 581-614). -/
def _filterIngredientAndSearch (query : Str) (ingredients : List Str) (s : RState) :
    Except Str (List ID) :=
  if query.isEmpty || (trimStr query).isEmpty then .error (str "Query cannot be empty.")
  else if ingredients.isEmpty then .error (str "Ingredients list cannot be empty.")
  else
    let normalizedQuery := lowerStr query
    let normalizedIngredients := ingredients.map lowerStr
    let recipeDocs := s.recipes.filter (fun d => regexSearch (parseRegex normalizedQuery) d.title)
    let scored := scoreFilter normalizedIngredients recipeDocs
    .ok ((sortByCountDesc scored).map (fun e => e.1._id))

/-- Embedding of `_filterIngredientAndSearchWithinRecipes` (lines 621-667). -/
def _filterIngredientAndSearchWithinRecipes (recipes : List ID) (query : Str)
    (ingredients : List Str) (s : RState) : Except Str (List ID) :=
  if query.isEmpty || (trimStr query).isEmpty then .error (str "Query cannot be empty.")
  else if ingredients.isEmpty then .error (str "Ingredients list cannot be empty.")
  else if recipes.isEmpty then .ok []
  else
    let normalizedQuery := lowerStr query
    let normalizedIngredients := ingredients.map lowerStr
    let recipeDocs := s.recipes.filter (fun d =>
      recipes.contains d._id && regexSearch (parseRegex normalizedQuery) d.title)
    let scored := scoreFilter normalizedIngredients recipeDocs
    .ok ((sortByCountDesc scored).map (fun e => e.1._id))

/-- Embedding of `_scaleIngredients` (lines 764-774): the recipe lookup is the **only**
check performed; the scale factor is multiplied in unconditionally and the
store is never written. -/
def _scaleIngredients (recipe : ID) (scaleFactor : Rat) (s : RState) :
    Except Str (List IngredientDoc) :=
  match s.recipes.find? (fun d => d._id == recipe) with
  | none => .error (str "Recipe not found")
  | some existing =>
    .ok (existing.ingredients.map (fun ing => { ing with quantity := ing.quantity * scaleFactor }))

/-!  ## Toolkit lemmas about the store primitives  -/

theorem mem_updateFirst {α} {p : α → Bool} {f : α → α} :
    ∀ {l : List α} {x : α}, x ∈ updateFirst p f l → x ∈ l ∨ ∃ y ∈ l, x = f y := by
  intro l
  induction l with
  | nil => intro x hx; simp [updateFirst] at hx
  | cons a as ih =>
    intro x hx
    simp only [updateFirst] at hx
    cases hp : p a with
    | true =>
      simp only [hp, if_true] at hx
      rcases List.mem_cons.mp hx with h | h
      · exact Or.inr ⟨a, List.mem_cons_self a as, h⟩
      · exact Or.inl (List.mem_cons_of_mem a h)
    | false =>
      simp only [hp, if_false] at hx
      rcases List.mem_cons.mp hx with h | h
      · exact Or.inl (h ▸ List.mem_cons_self a as)
      · rcases ih h with h1 | ⟨y, hy, hxy⟩
        · exact Or.inl (List.mem_cons_of_mem a h1)
        · exact Or.inr ⟨y, List.mem_cons_of_mem a hy, hxy⟩

theorem mem_deleteFirst {α} {p : α → Bool} :
    ∀ {l : List α} {x : α}, x ∈ deleteFirst p l → x ∈ l := by
  intro l
  induction l with
  | nil => intro x hx; simp [deleteFirst] at hx
  | cons a as ih =>
    intro x hx
    simp only [deleteFirst] at hx
    cases hp : p a with
    | true =>
      simp only [hp, if_true] at hx
      exact List.mem_cons_of_mem a hx
    | false =>
      simp only [hp, if_false] at hx
      rcases List.mem_cons.mp hx with h | h
      · exact h ▸ List.mem_cons_self a as
      · exact List.mem_cons_of_mem a (ih h)

theorem forall_mem_updateFirst {α} {P : α → Prop} {p : α → Bool} {f : α → α} {l : List α}
    (hl : ∀ x ∈ l, P x) (hf : ∀ x ∈ l, P x → P (f x)) :
    ∀ x ∈ updateFirst p f l, P x := by
  intro x hx
  rcases mem_updateFirst hx with h | ⟨y, hy, hxy⟩
  · exact hl x h
  · exact hxy ▸ hf y hy (hl y hy)

theorem find?_updateFirst_map {α} {p : α → Bool} {f : α → α}
    (hpf : ∀ x, p x = true → p (f x) = true) :
    ∀ {l : List α}, (updateFirst p f l).find? p = (l.find? p).map f := by
  intro l
  induction l with
  | nil => rfl
  | cons a as ih =>
    simp only [updateFirst]
    cases hp : p a with
    | true =>
      rw [if_pos rfl, List.find?_cons_of_pos _ (hpf a hp), List.find?_cons_of_pos _ hp]
      rfl
    | false =>
      rw [if_neg (by simp), List.find?_cons_of_neg _ (by simp [hp]),
        List.find?_cons_of_neg _ (by simp [hp]), ih]

theorem updateFirst_append_left {α} {p : α → Bool} {f : α → α} :
    ∀ {l l' : List α} {a : α}, l.find? p = some a →
      updateFirst p f (l ++ l') = updateFirst p f l ++ l' := by
  intro l
  induction l with
  | nil => intro l' a h; simp [List.find?] at h
  | cons b bs ih =>
    intro l' a h
    simp only [List.cons_append, updateFirst]
    cases hp : p b with
    | true => rw [if_pos rfl, if_pos rfl, List.cons_append]; simp [List.append_eq]
    | false =>
      rw [if_neg (by simp), if_neg (by simp), List.cons_append]
      rw [List.find?_cons_of_neg _ (by simp [hp])] at h
      simp only [List.append_eq]
      rw [ih h]

theorem find?_append_none {α} {p : α → Bool} :
    ∀ {l l' : List α}, l.find? p = none → (l ++ l').find? p = l'.find? p := by
  intro l
  induction l with
  | nil => intro l' _; rfl
  | cons b bs ih =>
    intro l' h
    cases hp : p b with
    | true => rw [List.find?_cons_of_pos _ hp] at h; simp at h
    | false =>
      rw [List.find?_cons_of_neg _ (by simp [hp])] at h
      rw [List.cons_append, List.find?_cons_of_neg _ (by simp [hp])]
      exact ih h

theorem find?_append_some {α} {p : α → Bool} :
    ∀ {l l' : List α} {a : α}, l.find? p = some a → (l ++ l').find? p = some a := by
  intro l
  induction l with
  | nil => intro l' a h; simp [List.find?] at h
  | cons b bs ih =>
    intro l' a h
    cases hp : p b with
    | true =>
      rw [List.find?_cons_of_pos _ hp] at h
      rw [List.cons_append, List.find?_cons_of_pos _ hp]
      exact h
    | false =>
      rw [List.find?_cons_of_neg _ (by simp [hp])] at h
      rw [List.cons_append, List.find?_cons_of_neg _ (by simp [hp])]
      exact ih h

theorem find?_updateFirst_of_none {α} {p q : α → Bool} {f : α → α} :
    ∀ {l : List α}, (∀ x ∈ l, q x = false) → (∀ x ∈ l, q (f x) = false) →
      (updateFirst p f l).find? q = none := by
  intro l
  induction l with
  | nil => intro _ _; rfl
  | cons a as ih =>
    intro h1 h2
    have ha1 : q a = false := h1 a (List.mem_cons_self a as)
    have ha2 : q (f a) = false := h2 a (List.mem_cons_self a as)
    simp only [updateFirst]
    cases hp : p a with
    | true =>
      rw [if_pos rfl, List.find?_cons_of_neg _ (by simp [ha2]), List.find?_eq_none]
      intro x hx
      simp [h1 x (List.mem_cons_of_mem a hx)]
    | false =>
      rw [if_neg (by simp), List.find?_cons_of_neg _ (by simp [ha1])]
      exact ih (fun x hx => h1 x (List.mem_cons_of_mem a hx))
        (fun x hx => h2 x (List.mem_cons_of_mem a hx))

/-!  ## Concrete stores used by witnesses and counterexamples  -/

def flourDoc : IngredientDoc :=
  { _id := 1, quantity := 100, name := str "flour", unit := str "g" }

def cakeDoc : RecipeDoc :=
  { _id := 0, owner := 7, title := str "Cake", ingredients := [flourDoc],
    image := [], link := str "http://x", description := [], isCopy := false }

def sOne : RState := { recipes := [cakeDoc], ingredients := [flourDoc], nextId := 2 }

/-!  ## C1  -/

/-- C1: the claim is contradicted by the code (a code bug, given the
operation's own `requires scale is a positive number` doc comment and the
repository's failing test steps "Scale by Negative"/"Scale by Zero"):
`_scaleIngredients` validates nothing but the recipe lookup, so on a stored
recipe holding flour of quantity 100, scale factors 0 and -1 are accepted
and a scaled ingredient list is returned instead of a `ValidationError`. -/
theorem scaleIngredients_accepts_nonpositive_factors :
    _scaleIngredients 0 0 sOne = .ok [{ flourDoc with quantity := 100 * 0 }] ∧
    (100 : Rat) * 0 = 0 ∧
    _scaleIngredients 0 (-1) sOne = .ok [{ flourDoc with quantity := 100 * (-1) }] ∧
    (100 : Rat) * (-1) = -100 :=
  ⟨rfl, by norm_num, rfl, by norm_num⟩

/-!  ## C9  -/

/-- C9: `editIngredient` and `deleteIngredient` act on the ingredient
catalog only: the recipe store — and with it every recipe's embedded
ingredient copies — is left unchanged by both, for every input. -/
theorem catalog_edits_never_cascade (s : RState) (inputIngredient ingredient : ID)
    (newName : Option Str) (newQuantity : Option Rat) (newUnit : Option Str) :
    (editIngredient inputIngredient newName newQuantity newUnit s).2.recipes = s.recipes ∧
    (deleteIngredient ingredient s).2.recipes = s.recipes := by
  constructor
  · unfold editIngredient
    cases s.ingredients.find? (fun i => i._id == inputIngredient) <;> rfl
  · unfold deleteIngredient
    cases s.ingredients.find? (fun i => i._id == ingredient) <;> rfl

/-!  ## C10  -/

/-- C10: in all three within-recipes query variants the emptiness
validations run before the empty-candidate short-circuit: with both the
candidate list and the ingredient set (or query) empty, the result is the
validation error, not the empty result list. -/
theorem withinRecipes_validations_before_short_circuit (s : RState) :
    _findRecipeByIngredientWithinRecipes [] [] s =
      .error (str "Ingredients list cannot be empty.") ∧
    _searchWithinRecipes [] [] s = .error (str "Query shouldn't be empty") ∧
    _filterIngredientAndSearchWithinRecipes [] [] [] s =
      .error (str "Query cannot be empty.") :=
  ⟨rfl, rfl, rfl⟩

/-!  ## `checkRecipeAndOwner` characterisation  -/

theorem checkRecipeAndOwner_not_owner {s : RState} {u r : ID} {d : RecipeDoc}
    (hfind : s.recipes.find? (fun x => x._id == r) = some d) (hown : d.owner ≠ u) :
    checkRecipeAndOwner u r s =
      .error (str "Sorry, you are not the owner of this recipe. You cannot delete the recipe.") := by
  unfold checkRecipeAndOwner
  rw [hfind]
  simp only [beq_iff_eq]
  rw [if_neg hown]

theorem checkRecipeAndOwner_ok_iff {s : RState} {u r : ID} {d : RecipeDoc} :
    checkRecipeAndOwner u r s = .ok d ↔
      s.recipes.find? (fun x => x._id == r) = some d ∧ d.owner = u := by
  unfold checkRecipeAndOwner
  cases hf : s.recipes.find? (fun x => x._id == r) with
  | none => simp
  | some e =>
    simp only [beq_iff_eq]
    by_cases ho : e.owner = u
    · rw [if_pos ho]
      constructor
      · intro h
        cases h
        exact ⟨rfl, ho⟩
      · intro ⟨h1, _⟩
        cases h1
        rfl
    · rw [if_neg ho]
      constructor
      · intro h; cases h
      · intro ⟨h1, h2⟩
        cases h1
        exact absurd h2 ho

/-!  ## C4  -/

/-- C4: whenever the target recipe exists but is owned by someone other
than the caller, each of the eleven owner-gated mutations returns the
uniform authorization error and leaves the whole store unchanged. -/
theorem ownerGated_mutations_auth_error_and_frame (s : RState) (u r i : ID)
    (lnk desc img txt : Str) (b : Bool) (d : RecipeDoc)
    (hfind : s.recipes.find? (fun x => x._id == r) = some d) (hown : d.owner ≠ u) :
    deleteRecipe u r s = (.error (str "Sorry, you are not the owner of this recipe. You cannot delete the recipe."), s) ∧
    addIngredientToRecipe u r i s = (.error (str "Sorry, you are not the owner of this recipe. You cannot delete the recipe."), s) ∧
    removeIngredientFromRecipe u r i s = (.error (str "Sorry, you are not the owner of this recipe. You cannot delete the recipe."), s) ∧
    setLink u r lnk s = (.error (str "Sorry, you are not the owner of this recipe. You cannot delete the recipe."), s) ∧
    removeLink u r s = (.error (str "Sorry, you are not the owner of this recipe. You cannot delete the recipe."), s) ∧
    setDescription u r desc s = (.error (str "Sorry, you are not the owner of this recipe. You cannot delete the recipe."), s) ∧
    removeDescription u r s = (.error (str "Sorry, you are not the owner of this recipe. You cannot delete the recipe."), s) ∧
    setRecipeCopy u r b s = (.error (str "Sorry, you are not the owner of this recipe. You cannot delete the recipe."), s) ∧
    setImage u r img s = (.error (str "Sorry, you are not the owner of this recipe. You cannot delete the recipe."), s) ∧
    deleteImage u r s = (.error (str "Sorry, you are not the owner of this recipe. You cannot delete the recipe."), s) ∧
    parseIngredients u r txt s = (.error (str "Sorry, you are not the owner of this recipe. You cannot delete the recipe."), s) := by
  have hc := checkRecipeAndOwner_not_owner hfind hown
  refine ⟨?_, ?_, ?_, ?_, ?_, ?_, ?_, ?_, ?_, ?_, ?_⟩
  · unfold deleteRecipe; rw [hc]
  · unfold addIngredientToRecipe; rw [hc]
  · unfold removeIngredientFromRecipe; rw [hc]
  · unfold setLink; rw [hc]
  · unfold removeLink; rw [hc]
  · unfold setDescription; rw [hc]
  · unfold removeDescription; rw [hc]
  · unfold setRecipeCopy; rw [hc]
  · unfold setImage; rw [hc]
  · unfold deleteImage; rw [hc]
  · unfold parseIngredients; rw [hc]

/-- Witness for C4 at a concrete store: recipe 0 exists in `sOne` with
owner 7, and caller 9 is rejected by every owner-gated mutation with the
store unchanged. -/
theorem ownerGated_mutations_auth_error_and_frame_witness :
    (sOne.recipes.find? (fun x => x._id == 0) = some cakeDoc ∧ cakeDoc.owner ≠ 9) ∧
    (deleteRecipe 9 0 sOne = (.error (str "Sorry, you are not the owner of this recipe. You cannot delete the recipe."), sOne) ∧
    addIngredientToRecipe 9 0 1 sOne = (.error (str "Sorry, you are not the owner of this recipe. You cannot delete the recipe."), sOne) ∧
    removeIngredientFromRecipe 9 0 1 sOne = (.error (str "Sorry, you are not the owner of this recipe. You cannot delete the recipe."), sOne) ∧
    setLink 9 0 (str "http://y") sOne = (.error (str "Sorry, you are not the owner of this recipe. You cannot delete the recipe."), sOne) ∧
    removeLink 9 0 sOne = (.error (str "Sorry, you are not the owner of this recipe. You cannot delete the recipe."), sOne) ∧
    setDescription 9 0 (str "d") sOne = (.error (str "Sorry, you are not the owner of this recipe. You cannot delete the recipe."), sOne) ∧
    removeDescription 9 0 sOne = (.error (str "Sorry, you are not the owner of this recipe. You cannot delete the recipe."), sOne) ∧
    setRecipeCopy 9 0 true sOne = (.error (str "Sorry, you are not the owner of this recipe. You cannot delete the recipe."), sOne) ∧
    setImage 9 0 (str "img") sOne = (.error (str "Sorry, you are not the owner of this recipe. You cannot delete the recipe."), sOne) ∧
    deleteImage 9 0 sOne = (.error (str "Sorry, you are not the owner of this recipe. You cannot delete the recipe."), sOne) ∧
    parseIngredients 9 0 (str "1,g,Flour") sOne = (.error (str "Sorry, you are not the owner of this recipe. You cannot delete the recipe."), sOne)) :=
  ⟨⟨rfl, by decide⟩,
    ownerGated_mutations_auth_error_and_frame sOne 9 0 1 (str "http://y") (str "d")
      (str "img") (str "1,g,Flour") true cakeDoc rfl (by decide)⟩

/-!  ## C8  -/

/-- The embedded-copy append performed by `addIngredientToRecipe`'s `$push`. -/
def addIngredUpd (i : IngredientDoc) : RecipeDoc → RecipeDoc :=
  fun d => { d with ingredients := d.ingredients ++ [i] }

/-- C8: attaching an ingredient is idempotent: if a call to
`addIngredientToRecipe` succeeds, running the very same call again on the
resulting store succeeds and changes nothing — in particular the embedded
ingredient list after two calls equals the one after one call, and no
duplicate embedded entry is created. -/
theorem addIngredientToRecipe_idempotent (s : RState) (u r i : ID)
    (hok : (addIngredientToRecipe u r i s).1 = .ok ()) :
    addIngredientToRecipe u r i (addIngredientToRecipe u r i s).2 =
      (.ok (), (addIngredientToRecipe u r i s).2) := by
  cases hc : checkRecipeAndOwner u r s with
  | error e =>
    unfold addIngredientToRecipe at hok
    rw [hc] at hok
    simp at hok
  | ok existing =>
    cases hi : s.ingredients.find? (fun x => x._id == i) with
    | none =>
      unfold addIngredientToRecipe at hok
      rw [hc] at hok
      dsimp only at hok
      rw [hi] at hok
      simp at hok
    | some ingredDoc =>
      cases hex : existing.ingredients.any (fun ing => ing._id == ingredDoc._id) with
      | true =>
        have h1 : addIngredientToRecipe u r i s = (.ok (), s) := by
          unfold addIngredientToRecipe
          rw [hc]
          dsimp only
          rw [hi]
          dsimp only
          rw [hex]
          simp
        rw [h1]
        exact h1
      | false =>
        obtain ⟨hfind, hown⟩ := checkRecipeAndOwner_ok_iff.mp hc
        have h1 : addIngredientToRecipe u r i s =
            (.ok (), { s with recipes := updateFirst (fun d => d._id == r) (addIngredUpd ingredDoc) s.recipes }) := by
          unfold addIngredientToRecipe
          rw [hc]
          dsimp only
          rw [hi]
          dsimp only
          rw [hex]
          simp
          rfl
        rw [h1]
        have hpf : ∀ x : RecipeDoc, (x._id == r) = true →
            ((addIngredUpd ingredDoc x)._id == r) = true := fun x hx => hx
        have hfind2 : (updateFirst (fun d => d._id == r) (addIngredUpd ingredDoc) s.recipes).find?
              (fun d => d._id == r) = some (addIngredUpd ingredDoc existing) := by
          rw [find?_updateFirst_map hpf, hfind]
          rfl
        have hc2 : checkRecipeAndOwner u r
            ({ s with recipes := updateFirst (fun d => d._id == r) (addIngredUpd ingredDoc) s.recipes }) =
            .ok (addIngredUpd ingredDoc existing) :=
          checkRecipeAndOwner_ok_iff.mpr ⟨hfind2, hown⟩
        unfold addIngredientToRecipe
        dsimp only
        rw [hc2]
        dsimp only
        rw [hi]
        dsimp only
        have hex2 : (addIngredUpd ingredDoc existing).ingredients.any
            (fun ing => ing._id == ingredDoc._id) = true := by
          simp [addIngredUpd, List.any_append]
        rw [hex2]
        simp

/-- Witness for C8: in `sOne`, recipe 0 (owner 7) already embeds catalog
ingredient 1, so the attach succeeds and re-running it is the identity. -/
theorem addIngredientToRecipe_idempotent_witness :
    (addIngredientToRecipe 7 0 1 sOne).1 = .ok () ∧
    addIngredientToRecipe 7 0 1 (addIngredientToRecipe 7 0 1 sOne).2 =
      (.ok (), (addIngredientToRecipe 7 0 1 sOne).2) :=
  ⟨rfl, addIngredientToRecipe_idempotent sOne 7 0 1 rfl⟩

/-!  ## C2  -/

/-- The parsing loop on input containing a malformed line always errors,
and its only state effect is appending the ingredients created for the
valid lines preceding the first malformed one to the catalog. -/
theorem parseIngredientsLoop_malformed :
    ∀ (lines : List Str) (s : RState), (∃ l ∈ lines, malformedLine l = true) →
      ∃ e ext, parseIngredientsLoop s lines =
        (.error e, { s with ingredients := s.ingredients ++ ext, nextId := s.nextId + ext.length }) := by
  intro lines
  induction lines with
  | nil => intro s h; simp at h
  | cons line rest ih =>
    intro s h
    unfold parseIngredientsLoop
    split
    · next q u n heq =>
      cases hq : parseFloatJS q with
      | none =>
        exact ⟨str "Invalid quantity: " ++ q, [], by simp⟩
      | some qty =>
        dsimp only
        have hml : malformedLine line = false := by
          unfold malformedLine
          rw [heq]
          dsimp only
          rw [hq]
          rfl
        have hrest : ∃ l ∈ rest, malformedLine l = true := by
          rcases h with ⟨l, hl, hml2⟩
          rcases List.mem_cons.mp hl with rfl | hl2
          · rw [hml] at hml2; cases hml2
          · exact ⟨l, hl2, hml2⟩
        obtain ⟨e, ext, hrec⟩ := ih (createIngredientHelper n qty u s).2 hrest
        rw [hrec]
        refine ⟨e, { _id := s.nextId, quantity := qty, name := lowerStr n, unit := u } :: ext, ?_⟩
        dsimp only
        unfold createIngredientHelper
        dsimp only
        simp [List.append_assoc, Nat.add_assoc, Nat.add_comm]
        constructor
        · rfl
        · ring
    · next parts hne =>
      exact ⟨str "Invalid ingredient format: " ++ line, [], by simp⟩

/-- C2 (amended): an owner-authorised `parseIngredients` call whose text
contains a malformed line fails with the `ValidationError` and leaves the
recipe store — hence every recipe's embedded ingredient list — unchanged,
but the ingredient catalog is extended by the ingredients created for the
valid lines preceding the first malformed one (so the catalog is unchanged
only when no valid line precedes it). -/
theorem parseIngredients_malformed_error_catalog_extension (s : RState) (u r : ID)
    (text : Str) (d : RecipeDoc) (hauth : checkRecipeAndOwner u r s = .ok d)
    (hmal : ∃ l ∈ recipeLines text, malformedLine l = true) :
    ∃ e ext, parseIngredients u r text s =
      (.error e, { s with ingredients := s.ingredients ++ ext, nextId := s.nextId + ext.length }) := by
  obtain ⟨e, ext, hrec⟩ := parseIngredientsLoop_malformed (recipeLines text) s hmal
  refine ⟨e, ext, ?_⟩
  unfold parseIngredients
  rw [hauth]
  dsimp only
  rw [hrec]

/-- Witness for C2's amended theorem: caller 7 owns recipe 0 of `sOne`,
and the text `"1,g,Flour\nbad"` has the malformed second line `"bad"`. -/
theorem parseIngredients_malformed_error_catalog_extension_witness :
    (checkRecipeAndOwner 7 0 sOne = .ok cakeDoc ∧
      ∃ l ∈ recipeLines (str "1,g,Flour\nbad"), malformedLine l = true) ∧
    (∃ e ext, parseIngredients 7 0 (str "1,g,Flour\nbad") sOne = (.error e, { sOne with ingredients := sOne.ingredients ++ ext, nextId := sOne.nextId + ext.length })) :=
  ⟨⟨rfl, ⟨str "bad", by decide, by decide⟩⟩,
    parseIngredients_malformed_error_catalog_extension sOne 7 0
      (str "1,g,Flour\nbad") cakeDoc rfl ⟨str "bad", by decide, by decide⟩⟩

/-- C2 counterexample to the claim as stated: on `sOne` (catalog holding
exactly flour), the owner-authorised call
`parseIngredients 7 0 "1,g,Flour\nbad"` fails with the `ValidationError`
for line `"bad"`, yet the Ingredient Catalog *has* changed: the valid
first line already inserted a new catalog ingredient before the failure. -/
theorem parseIngredients_not_atomic_counterexample :
    (parseIngredients 7 0 (str "1,g,Flour\nbad") sOne).1 =
      .error (str "Invalid ingredient format: bad") ∧
    (parseIngredients 7 0 (str "1,g,Flour\nbad") sOne).2.ingredients ≠ sOne.ingredients := by
  constructor
  · rfl
  · intro heq
    exact absurd (congrArg List.length heq) (by decide)

/-!  ## Reachable-state invariant: two-slot presence and identifier freshness  -/

/-- Per-document invariant at counter value `nid`: the recipe keeps at
least one of `link`/`description` non-empty, and its identifier was handed
out by an earlier `freshID` call. -/
def DocOK (nid : ID) (d : RecipeDoc) : Prop :=
  (d.link ≠ [] ∨ d.description ≠ []) ∧ d._id < nid

def StoreInv (s : RState) : Prop := ∀ d ∈ s.recipes, DocOK s.nextId d

theorem DocOK_mono {n n2 : ID} (hn : n ≤ n2) {d : RecipeDoc} (h : DocOK n d) : DocOK n2 d :=
  ⟨h.1, lt_of_lt_of_le h.2 hn⟩

theorem isValidLink_ne_nil {l : Str} (h : isValidLink l = true) : l ≠ [] := by
  intro hnil
  rw [hnil] at h
  exact absurd h (by decide)

theorem ne_nil_of_isEmpty_false {l : Str} (h : l.isEmpty = false) : l ≠ [] := by
  intro hnil
  rw [hnil] at h
  exact absurd h (by decide)

theorem truthyOpt_getD_ne_nil {o : Option Str} (h : truthyOpt o = true) : o.getD [] ≠ [] := by
  cases o with
  | none => exact absurd h (by decide)
  | some l =>
    intro hnil
    have : l = [] := hnil
    rw [this] at h
    exact absurd h (by decide)

theorem forall_mem_updateFirst_of_find? {α} {P : α → Prop} {p : α → Bool} {f : α → α} :
    ∀ {l : List α} {a : α}, l.find? p = some a → (∀ x ∈ l, P x) → P (f a) →
      ∀ x ∈ updateFirst p f l, P x := by
  intro l
  induction l with
  | nil => intro a h; simp [List.find?] at h
  | cons b bs ih =>
    intro a hfind hl hfa x hx
    simp only [updateFirst] at hx
    cases hp : p b with
    | true =>
      rw [List.find?_cons_of_pos _ hp] at hfind
      have hba : b = a := by injection hfind
      subst hba
      simp only [hp, if_true] at hx
      rcases List.mem_cons.mp hx with rfl | hx2
      · exact hfa
      · exact hl x (List.mem_cons_of_mem b hx2)
    | false =>
      rw [List.find?_cons_of_neg _ (by simp [hp])] at hfind
      simp only [hp, if_false] at hx
      rcases List.mem_cons.mp hx with rfl | hx2
      · exact hl _ (List.mem_cons_self _ _)
      · exact ih hfind (fun y hy => hl y (List.mem_cons_of_mem _ hy)) hfa x hx2

/-- The parsing loop never touches the recipe store and only advances the
identifier counter. -/
theorem parseIngredientsLoop_state :
    ∀ (lines : List Str) (s : RState),
      (parseIngredientsLoop s lines).2.recipes = s.recipes ∧
      s.nextId ≤ (parseIngredientsLoop s lines).2.nextId := by
  intro lines
  induction lines with
  | nil => intro s; exact ⟨rfl, Nat.le_refl _⟩
  | cons line rest ih =>
    intro s
    unfold parseIngredientsLoop
    split
    · next q u n heq =>
      cases hq : parseFloatJS q with
      | none => exact ⟨rfl, Nat.le_refl _⟩
      | some qty =>
        dsimp only
        obtain ⟨h1, h2⟩ := ih (createIngredientHelper n qty u s).2
        exact ⟨h1, Nat.le_trans (Nat.le_succ _) h2⟩
    · next parts hne => exact ⟨rfl, Nat.le_refl _⟩

/-!  ## Invariant preservation, one lemma per mutating operation  -/

theorem inv_createRecipe {s : RState} (owner : ID) (title : Str) (link description : Option Str)
    (h : StoreInv s) : StoreInv (createRecipe owner title link description s).2 := by
  unfold createRecipe
  cases hdup : s.recipes.find? (fun d => d.owner == owner && d.title == title) with
  | some e => exact h
  | none =>
    try dsimp only
    cases hl : truthyOpt link with
    | true =>
      cases hv : isValidLink (link.getD []) with
      | false => exact h
      | true =>
        intro d hd
        rcases List.mem_append.mp hd with hmem | hnew
        · exact DocOK_mono (Nat.le_succ _) (h d hmem)
        · have hde : d = { _id := s.nextId, owner := owner, title := title, ingredients := [], image := [], link := link.getD [], description := description.getD [], isCopy := false } := by
            simpa using hnew
          subst hde
          exact ⟨Or.inl (truthyOpt_getD_ne_nil hl), Nat.lt_succ_self _⟩
    | false =>
      cases hdsc : truthyOpt description with
      | false => exact h
      | true =>
        intro d hd
        rcases List.mem_append.mp hd with hmem | hnew
        · exact DocOK_mono (Nat.le_succ _) (h d hmem)
        · have hde : d = { _id := s.nextId, owner := owner, title := title, ingredients := [], image := [], link := link.getD [], description := description.getD [], isCopy := false } := by
            simpa using hnew
          subst hde
          exact ⟨Or.inr (truthyOpt_getD_ne_nil hdsc), Nat.lt_succ_self _⟩

theorem inv_deleteRecipe {s : RState} (u r : ID) (h : StoreInv s) :
    StoreInv (deleteRecipe u r s).2 := by
  unfold deleteRecipe
  cases hc : checkRecipeAndOwner u r s with
  | error e => exact h
  | ok ex =>
    try dsimp only
    intro d hd
    exact h d (mem_deleteFirst hd)

theorem inv_addIngredientToRecipe {s : RState} (u r i : ID) (h : StoreInv s) :
    StoreInv (addIngredientToRecipe u r i s).2 := by
  unfold addIngredientToRecipe
  cases hc : checkRecipeAndOwner u r s with
  | error e => exact h
  | ok ex =>
    try dsimp only
    cases hi : s.ingredients.find? (fun x => x._id == i) with
    | none => exact h
    | some ingredDoc =>
      try dsimp only
      cases hex : ex.ingredients.any (fun ing => ing._id == ingredDoc._id) with
      | true => exact h
      | false =>
        try dsimp only
        obtain ⟨hfind, -⟩ := checkRecipeAndOwner_ok_iff.mp hc
        intro d hd
        refine forall_mem_updateFirst_of_find? hfind h ?_ d hd
        exact h ex (List.mem_of_find?_eq_some hfind)

theorem inv_removeIngredientFromRecipe {s : RState} (u r i : ID) (h : StoreInv s) :
    StoreInv (removeIngredientFromRecipe u r i s).2 := by
  unfold removeIngredientFromRecipe
  cases hc : checkRecipeAndOwner u r s with
  | error e => exact h
  | ok ex =>
    try dsimp only
    cases hi : s.ingredients.find? (fun x => x._id == i) with
    | none => exact h
    | some ingredDoc =>
      try dsimp only
      cases hex : ex.ingredients.any (fun ing => ing._id == ingredDoc._id) with
      | false => exact h
      | true =>
        try dsimp only
        obtain ⟨hfind, -⟩ := checkRecipeAndOwner_ok_iff.mp hc
        intro d hd
        refine forall_mem_updateFirst_of_find? hfind h ?_ d hd
        exact h ex (List.mem_of_find?_eq_some hfind)

theorem inv_setLink {s : RState} (u r : ID) (l : Str) (h : StoreInv s) :
    StoreInv (setLink u r l s).2 := by
  unfold setLink
  cases hc : checkRecipeAndOwner u r s with
  | error e => exact h
  | ok ex =>
    try dsimp only
    cases hv : isValidLink l with
    | false => exact h
    | true =>
      try dsimp only
      obtain ⟨hfind, -⟩ := checkRecipeAndOwner_ok_iff.mp hc
      intro d hd
      refine forall_mem_updateFirst_of_find? hfind h ?_ d hd
      exact ⟨Or.inl (isValidLink_ne_nil hv), (h ex (List.mem_of_find?_eq_some hfind)).2⟩

theorem inv_removeLink {s : RState} (u r : ID) (h : StoreInv s) :
    StoreInv (removeLink u r s).2 := by
  unfold removeLink
  cases hc : checkRecipeAndOwner u r s with
  | error e => exact h
  | ok ex =>
    try dsimp only
    cases hg : ex.description.isEmpty || (trimStr ex.description).isEmpty with
    | true => exact h
    | false =>
      try dsimp only
      obtain ⟨hfind, -⟩ := checkRecipeAndOwner_ok_iff.mp hc
      intro d hd
      refine forall_mem_updateFirst_of_find? hfind h ?_ d hd
      have hdesc : ex.description ≠ [] :=
        ne_nil_of_isEmpty_false (Bool.or_eq_false_iff.mp hg).1
      exact ⟨Or.inr hdesc, (h ex (List.mem_of_find?_eq_some hfind)).2⟩

theorem inv_setDescription {s : RState} (u r : ID) (dsc : Str) (h : StoreInv s) :
    StoreInv (setDescription u r dsc s).2 := by
  unfold setDescription
  cases hc : checkRecipeAndOwner u r s with
  | error e => exact h
  | ok ex =>
    try dsimp only
    cases hg : dsc.isEmpty || (trimStr dsc).isEmpty with
    | true => exact h
    | false =>
      try dsimp only
      obtain ⟨hfind, -⟩ := checkRecipeAndOwner_ok_iff.mp hc
      intro d hd
      refine forall_mem_updateFirst_of_find? hfind h ?_ d hd
      have hdesc : dsc ≠ [] := ne_nil_of_isEmpty_false (Bool.or_eq_false_iff.mp hg).1
      exact ⟨Or.inr hdesc, (h ex (List.mem_of_find?_eq_some hfind)).2⟩

theorem inv_removeDescription {s : RState} (u r : ID) (h : StoreInv s) :
    StoreInv (removeDescription u r s).2 := by
  unfold removeDescription
  cases hc : checkRecipeAndOwner u r s with
  | error e => exact h
  | ok ex =>
    try dsimp only
    cases hg : ex.link.isEmpty with
    | true => exact h
    | false =>
      try dsimp only
      obtain ⟨hfind, -⟩ := checkRecipeAndOwner_ok_iff.mp hc
      intro d hd
      refine forall_mem_updateFirst_of_find? hfind h ?_ d hd
      exact ⟨Or.inl (ne_nil_of_isEmpty_false hg), (h ex (List.mem_of_find?_eq_some hfind)).2⟩

theorem inv_setRecipeCopy {s : RState} (u r : ID) (b : Bool) (h : StoreInv s) :
    StoreInv (setRecipeCopy u r b s).2 := by
  unfold setRecipeCopy
  cases hc : checkRecipeAndOwner u r s with
  | error e => exact h
  | ok ex =>
    try dsimp only
    obtain ⟨hfind, -⟩ := checkRecipeAndOwner_ok_iff.mp hc
    intro d hd
    refine forall_mem_updateFirst_of_find? hfind h ?_ d hd
    exact h ex (List.mem_of_find?_eq_some hfind)

theorem inv_setImage {s : RState} (u r : ID) (img : Str) (h : StoreInv s) :
    StoreInv (setImage u r img s).2 := by
  unfold setImage
  cases hc : checkRecipeAndOwner u r s with
  | error e => exact h
  | ok ex =>
    try dsimp only
    obtain ⟨hfind, -⟩ := checkRecipeAndOwner_ok_iff.mp hc
    intro d hd
    refine forall_mem_updateFirst_of_find? hfind h ?_ d hd
    exact h ex (List.mem_of_find?_eq_some hfind)

theorem inv_deleteImage {s : RState} (u r : ID) (h : StoreInv s) :
    StoreInv (deleteImage u r s).2 := by
  unfold deleteImage
  cases hc : checkRecipeAndOwner u r s with
  | error e => exact h
  | ok ex =>
    try dsimp only
    cases hg : ex.image.isEmpty || (trimStr ex.image).isEmpty with
    | true => exact h
    | false =>
      try dsimp only
      obtain ⟨hfind, -⟩ := checkRecipeAndOwner_ok_iff.mp hc
      intro d hd
      refine forall_mem_updateFirst_of_find? hfind h ?_ d hd
      exact h ex (List.mem_of_find?_eq_some hfind)

theorem inv_copyRecipe {s : RState} (u r : ID) (h : StoreInv s) :
    StoreInv (copyRecipe u r s).2 := by
  unfold copyRecipe
  cases hf : s.recipes.find? (fun x => x._id == r) with
  | none => exact h
  | some ex =>
    try dsimp only
    intro d hd
    rcases mem_updateFirst hd with hmem | ⟨y, hy, rfl⟩
    · rcases List.mem_append.mp hmem with h1 | h2
      · exact DocOK_mono (Nat.le_succ _) (h d h1)
      · have hde : d = { _id := s.nextId, owner := u, title := ex.title, ingredients := ex.ingredients, link := ex.link, description := ex.description, image := ex.image, isCopy := true } := by
          simpa using h2
        subst hde
        exact ⟨(h ex (List.mem_of_find?_eq_some hf)).1, Nat.lt_succ_self _⟩
    · rcases List.mem_append.mp hy with h1 | h2
      · exact DocOK_mono (Nat.le_succ _) (h y h1)
      · have hde : y = { _id := s.nextId, owner := u, title := ex.title, ingredients := ex.ingredients, link := ex.link, description := ex.description, image := ex.image, isCopy := true } := by
          simpa using h2
        subst hde
        exact ⟨(h ex (List.mem_of_find?_eq_some hf)).1, Nat.lt_succ_self _⟩

theorem inv_parseIngredients {s : RState} (u r : ID) (text : Str) (h : StoreInv s) :
    StoreInv (parseIngredients u r text s).2 := by
  unfold parseIngredients
  cases hc : checkRecipeAndOwner u r s with
  | error e => exact h
  | ok ex =>
    try dsimp only
    obtain ⟨hrec, hle⟩ := parseIngredientsLoop_state (recipeLines text) s
    cases hr : (parseIngredientsLoop s (recipeLines text)).1 with
    | error e =>
      intro d hd
      rw [hrec] at hd
      exact DocOK_mono hle (h d hd)
    | ok created =>
      try dsimp only
      intro d hd
      rw [hrec] at hd
      obtain ⟨hfind, -⟩ := checkRecipeAndOwner_ok_iff.mp hc
      refine forall_mem_updateFirst_of_find? hfind (fun x hx => DocOK_mono hle (h x hx)) ?_ d hd
      exact DocOK_mono hle (h ex (List.mem_of_find?_eq_some hfind))

theorem inv_createIngredient {s : RState} (name : Str) (q : Rat) (unit : Str) (h : StoreInv s) :
    StoreInv (createIngredient name q unit s).2 := by
  unfold createIngredient
  cases hg : name.isEmpty || (trimStr name).isEmpty with
  | true => exact h
  | false =>
    try dsimp only
    intro d hd
    exact DocOK_mono (Nat.le_succ _) (h d hd)

theorem inv_deleteIngredient {s : RState} (i : ID) (h : StoreInv s) :
    StoreInv (deleteIngredient i s).2 := by
  unfold deleteIngredient
  cases hi : s.ingredients.find? (fun x => x._id == i) with
  | none => exact h
  | some e => exact h

theorem inv_editIngredient {s : RState} (i : ID) (nn : Option Str) (nq : Option Rat)
    (nu : Option Str) (h : StoreInv s) : StoreInv (editIngredient i nn nq nu s).2 := by
  unfold editIngredient
  cases hi : s.ingredients.find? (fun x => x._id == i) with
  | none => exact h
  | some e => exact h

/-!  ## The transition system of the concept  -/

/-- One mutating operation of `RecipeConcept`, with arbitrary arguments,
taking the store from `s` to the operation's post state. -/
inductive Step : RState → RState → Prop where
  | screateRecipe (s : RState) (owner : ID) (title : Str) (link description : Option Str) :
      Step s (createRecipe owner title link description s).2
  | sdeleteRecipe (s : RState) (u r : ID) : Step s (deleteRecipe u r s).2
  | saddIngredientToRecipe (s : RState) (u r i : ID) :
      Step s (addIngredientToRecipe u r i s).2
  | sremoveIngredientFromRecipe (s : RState) (u r i : ID) :
      Step s (removeIngredientFromRecipe u r i s).2
  | ssetLink (s : RState) (u r : ID) (l : Str) : Step s (setLink u r l s).2
  | sremoveLink (s : RState) (u r : ID) : Step s (removeLink u r s).2
  | ssetDescription (s : RState) (u r : ID) (dsc : Str) : Step s (setDescription u r dsc s).2
  | sremoveDescription (s : RState) (u r : ID) : Step s (removeDescription u r s).2
  | ssetRecipeCopy (s : RState) (u r : ID) (b : Bool) : Step s (setRecipeCopy u r b s).2
  | ssetImage (s : RState) (u r : ID) (img : Str) : Step s (setImage u r img s).2
  | sdeleteImage (s : RState) (u r : ID) : Step s (deleteImage u r s).2
  | scopyRecipe (s : RState) (u r : ID) : Step s (copyRecipe u r s).2
  | sparseIngredients (s : RState) (u r : ID) (text : Str) :
      Step s (parseIngredients u r text s).2
  | screateIngredient (s : RState) (name : Str) (q : Rat) (unit : Str) :
      Step s (createIngredient name q unit s).2
  | sdeleteIngredient (s : RState) (i : ID) : Step s (deleteIngredient i s).2
  | seditIngredient (s : RState) (i : ID) (nn : Option Str) (nq : Option Rat) (nu : Option Str) :
      Step s (editIngredient i nn nq nu s).2

/-- A store is reachable when some sequence of operations produces it from
the empty initial store. -/
def Reachable (s : RState) : Prop := Relation.ReflTransGen Step initState s

theorem inv_step {s s2 : RState} (h : StoreInv s) (hs : Step s s2) : StoreInv s2 := by
  cases hs with
  | screateRecipe owner title link description => exact inv_createRecipe owner title link description h
  | sdeleteRecipe u r => exact inv_deleteRecipe u r h
  | saddIngredientToRecipe u r i => exact inv_addIngredientToRecipe u r i h
  | sremoveIngredientFromRecipe u r i => exact inv_removeIngredientFromRecipe u r i h
  | ssetLink u r l => exact inv_setLink u r l h
  | sremoveLink u r => exact inv_removeLink u r h
  | ssetDescription u r dsc => exact inv_setDescription u r dsc h
  | sremoveDescription u r => exact inv_removeDescription u r h
  | ssetRecipeCopy u r b => exact inv_setRecipeCopy u r b h
  | ssetImage u r img => exact inv_setImage u r img h
  | sdeleteImage u r => exact inv_deleteImage u r h
  | scopyRecipe u r => exact inv_copyRecipe u r h
  | sparseIngredients u r text => exact inv_parseIngredients u r text h
  | screateIngredient name q unit => exact inv_createIngredient name q unit h
  | sdeleteIngredient i => exact inv_deleteIngredient i h
  | seditIngredient i nn nq nu => exact inv_editIngredient i nn nq nu h

theorem reachable_inv {s : RState} (h : Reachable s) : StoreInv s := by
  induction h with
  | refl => intro d hd; simp [initState] at hd
  | tail _ hstep ih => exact inv_step ih hstep

/-!  ## C3  -/

def descDoc : RecipeDoc :=
  { _id := 3, owner := 8, title := str "Pie", ingredients := [], image := [],
    link := [], description := str "mix well", isCopy := false }

def sDesc : RState := { recipes := [descDoc], ingredients := [], nextId := 4 }

/-- C3: the two-slot presence invariant.  (1) Every reachable store
satisfies `link != "" or description != ""` for each recipe;
(2) `createRecipe` with both `link` and `description` empty/absent returns
an error without mutating; (3) `removeLink` on a recipe whose description
is empty fails without mutating; (4) `removeDescription` on a recipe whose
link is empty fails without mutating — so a recipe with both slots empty
is unreachable. -/
theorem twoSlot_state_machine :
    (∀ s, Reachable s → ∀ d ∈ s.recipes, d.link ≠ [] ∨ d.description ≠ []) ∧
    (∀ (s : RState) (owner : ID) (title : Str) (link description : Option Str),
      truthyOpt link = false → truthyOpt description = false →
      ∃ e, createRecipe owner title link description s = (.error e, s)) ∧
    (∀ (s : RState) (u r : ID) (d : RecipeDoc),
      s.recipes.find? (fun x => x._id == r) = some d → d.description = [] →
      ∃ e, removeLink u r s = (.error e, s)) ∧
    (∀ (s : RState) (u r : ID) (d : RecipeDoc),
      s.recipes.find? (fun x => x._id == r) = some d → d.link = [] →
      ∃ e, removeDescription u r s = (.error e, s)) := by
  refine ⟨?_, ?_, ?_, ?_⟩
  · intro s hs d hd
    exact (reachable_inv hs d hd).1
  · intro s owner title link description hl hd
    unfold createRecipe
    cases hdup : s.recipes.find? (fun d => d.owner == owner && d.title == title) with
    | some e => exact ⟨_, rfl⟩
    | none =>
      refine ⟨str "Recipe must have at least a link or description!", ?_⟩
      simp [hl, hd]
  · intro s u r d hfind hdesc
    unfold removeLink
    by_cases ho : d.owner = u
    · have hc : checkRecipeAndOwner u r s = .ok d := checkRecipeAndOwner_ok_iff.mpr ⟨hfind, ho⟩
      rw [hc]
      exact ⟨str "Cannot remove link because the recipe has no description.", by simp [hdesc]⟩
    · have hc := checkRecipeAndOwner_not_owner hfind ho
      rw [hc]
      exact ⟨_, rfl⟩
  · intro s u r d hfind hlink
    unfold removeDescription
    by_cases ho : d.owner = u
    · have hc : checkRecipeAndOwner u r s = .ok d := checkRecipeAndOwner_ok_iff.mpr ⟨hfind, ho⟩
      rw [hc]
      exact ⟨str "Cannot remove description because the recipe has no link.", by simp [hlink]⟩
    · have hc := checkRecipeAndOwner_not_owner hfind ho
      rw [hc]
      exact ⟨_, rfl⟩

/-- Witness for C3: the store reached by one `createRecipe` call satisfies
the two-slot invariant; `createRecipe` with no link/description, a
`removeLink` on `sOne`'s description-less recipe, and a
`removeDescription` on `sDesc`'s link-less recipe all fail in place. -/
theorem twoSlot_state_machine_witness :
    (∀ d ∈ (createRecipe 7 (str "Cake") (some (str "http://x")) none initState).2.recipes,
      d.link ≠ [] ∨ d.description ≠ []) ∧
    (truthyOpt (none : Option Str) = false ∧
      ∃ e, createRecipe 1 (str "T") none none initState = (.error e, initState)) ∧
    (sOne.recipes.find? (fun x => x._id == 0) = some cakeDoc ∧ cakeDoc.description = [] ∧
      ∃ e, removeLink 7 0 sOne = (.error e, sOne)) ∧
    (sDesc.recipes.find? (fun x => x._id == 3) = some descDoc ∧ descDoc.link = [] ∧
      ∃ e, removeDescription 8 3 sDesc = (.error e, sDesc)) :=
  ⟨twoSlot_state_machine.1 _
      (Relation.ReflTransGen.single (Step.screateRecipe initState 7 (str "Cake") (some (str "http://x")) none)),
    ⟨rfl, twoSlot_state_machine.2.1 initState 1 (str "T") none none rfl rfl⟩,
    ⟨rfl, rfl, twoSlot_state_machine.2.2.1 sOne 7 0 cakeDoc rfl rfl⟩,
    ⟨rfl, rfl, twoSlot_state_machine.2.2.2 sDesc 8 3 descDoc rfl rfl⟩⟩

/-!  ## C5  -/

/-- C5: for every reachable store, `copyRecipe` succeeds on any existing
source recipe with **no ownership check**: it returns a fresh recipe id
owned by the caller whose title, ingredients, link, description and image
equal the source's and whose `isCopy` is true, it flips `isCopy := true`
on the source as well, leaves the catalog alone, and it fails (with
`NotFoundError`) only when the source recipe is absent. -/
theorem copyRecipe_spec :
    (∀ (s : RState) (u r : ID) (d : RecipeDoc), Reachable s →
      s.recipes.find? (fun x => x._id == r) = some d →
      (copyRecipe u r s).1 = .ok s.nextId ∧
      (copyRecipe u r s).2.recipes.find? (fun x => x._id == s.nextId) =
        some { _id := s.nextId, owner := u, title := d.title, ingredients := d.ingredients, link := d.link, description := d.description, image := d.image, isCopy := true } ∧
      (copyRecipe u r s).2.recipes.find? (fun x => x._id == r) = some { d with isCopy := true } ∧
      (copyRecipe u r s).2.ingredients = s.ingredients) ∧
    (∀ (s : RState) (u r : ID), s.recipes.find? (fun x => x._id == r) = none →
      copyRecipe u r s = (.error (str "Recipe not found"), s)) := by
  constructor
  · intro s u r d hreach hfind
    have hinv := reachable_inv hreach
    have hfresh : ∀ x ∈ s.recipes, (x._id == s.nextId) = false := by
      intro x hx
      exact beq_eq_false_iff_ne.mpr (Nat.ne_of_lt (hinv x hx).2)
    unfold copyRecipe
    rw [hfind]
    dsimp only
    refine ⟨rfl, ?_, ?_, rfl⟩
    · rw [updateFirst_append_left hfind]
      rw [find?_append_none (@find?_updateFirst_of_none RecipeDoc (fun x => x._id == r)
        (fun x => x._id == s.nextId) (fun d => { d with isCopy := true }) s.recipes hfresh hfresh)]
      simp [List.find?_cons]
    · rw [@find?_updateFirst_map RecipeDoc (fun x => x._id == r)
        (fun d => { d with isCopy := true }) (fun x hx => hx), find?_append_some hfind]
      rfl
  · intro s u r hfind
    unfold copyRecipe
    rw [hfind]

def sCake : RState := (createRecipe 7 (str "Cake") (some (str "http://x")) none initState).2

def cakeDoc0 : RecipeDoc :=
  { _id := 0, owner := 7, title := str "Cake", ingredients := [], image := [],
    link := str "http://x", description := [], isCopy := false }

/-- Witness for C5: user 7 creates "Cake" (link only); user 9 copies it:
the copy is owned by 9 with identical fields and `isCopy = true`, and the
original now also has `isCopy = true`; copying the absent id 5 in `sOne`
fails with the not-found error. -/
theorem copyRecipe_spec_witness :
    (sCake.recipes.find? (fun x => x._id == 0) = some cakeDoc0 ∧
      (copyRecipe 9 0 sCake).1 = .ok sCake.nextId ∧
      (copyRecipe 9 0 sCake).2.recipes.find? (fun x => x._id == sCake.nextId) =
        some { _id := sCake.nextId, owner := 9, title := cakeDoc0.title, ingredients := cakeDoc0.ingredients, link := cakeDoc0.link, description := cakeDoc0.description, image := cakeDoc0.image, isCopy := true } ∧
      (copyRecipe 9 0 sCake).2.recipes.find? (fun x => x._id == 0) = some { cakeDoc0 with isCopy := true } ∧
      (copyRecipe 9 0 sCake).2.ingredients = sCake.ingredients) ∧
    (sOne.recipes.find? (fun x => x._id == 5) = none ∧
      copyRecipe 9 5 sOne = (.error (str "Recipe not found"), sOne)) :=
  ⟨⟨rfl, copyRecipe_spec.1 sCake 9 0 cakeDoc0
      (Relation.ReflTransGen.single
        (Step.screateRecipe initState 7 (str "Cake") (some (str "http://x")) none)) rfl⟩,
    ⟨rfl, copyRecipe_spec.2 sOne 9 5 rfl⟩⟩

/-!  ## C6: the ranking engine  -/

theorem insertScored_perm (x : RecipeDoc × Nat) (l : List (RecipeDoc × Nat)) :
    (insertScored x l).Perm (x :: l) := by
  induction l with
  | nil => exact List.Perm.refl _
  | cons y ys ih =>
    simp only [insertScored]
    by_cases hy : y.2 < x.2
    · rw [if_pos hy]
    · rw [if_neg hy]
      exact List.Perm.trans (List.Perm.cons y ih) (List.Perm.swap x y ys)

theorem mem_insertScored {x y : RecipeDoc × Nat} :
    ∀ {l : List (RecipeDoc × Nat)}, y ∈ insertScored x l → y = x ∨ y ∈ l := by
  intro l
  induction l with
  | nil =>
    intro hy
    simp only [insertScored] at hy
    exact Or.inl (List.mem_singleton.mp hy)
  | cons z zs ih =>
    intro hy
    simp only [insertScored] at hy
    by_cases hz : z.2 < x.2
    · rw [if_pos hz] at hy
      rcases List.mem_cons.mp hy with rfl | hy2
      · exact Or.inl rfl
      · exact Or.inr hy2
    · rw [if_neg hz] at hy
      rcases List.mem_cons.mp hy with rfl | hy2
      · exact Or.inr (List.mem_cons_self _ _)
      · rcases ih hy2 with h | h
        · exact Or.inl h
        · exact Or.inr (List.mem_cons_of_mem _ h)

theorem insertScored_sorted {x : RecipeDoc × Nat} :
    ∀ {l : List (RecipeDoc × Nat)}, l.Pairwise (fun a b => b.2 ≤ a.2) →
      (insertScored x l).Pairwise (fun a b => b.2 ≤ a.2) := by
  intro l
  induction l with
  | nil => intro _; simp [insertScored]
  | cons y ys ih =>
    intro h
    rcases List.pairwise_cons.mp h with ⟨hy, hys⟩
    simp only [insertScored]
    by_cases hlt : y.2 < x.2
    · rw [if_pos hlt]
      refine List.pairwise_cons.mpr ⟨?_, h⟩
      intro z hz
      rcases List.mem_cons.mp hz with rfl | hz2
      · exact Nat.le_of_lt hlt
      · exact Nat.le_trans (hy z hz2) (Nat.le_of_lt hlt)
    · rw [if_neg hlt]
      refine List.pairwise_cons.mpr ⟨?_, ih hys⟩
      intro z hz
      rcases mem_insertScored hz with rfl | hz2
      · exact Nat.le_of_not_lt hlt
      · exact hy z hz2

theorem sortScoredAux_perm :
    ∀ (l acc : List (RecipeDoc × Nat)), (sortScoredAux acc l).Perm (acc ++ l) := by
  intro l
  induction l with
  | nil => intro acc; simp [sortScoredAux]
  | cons x xs ih =>
    intro acc
    simp only [sortScoredAux]
    refine List.Perm.trans (ih (insertScored x acc)) ?_
    refine List.Perm.trans (List.Perm.append_right xs (insertScored_perm x acc)) ?_
    exact (List.perm_middle).symm

theorem sortScoredAux_sorted :
    ∀ (l acc : List (RecipeDoc × Nat)), acc.Pairwise (fun a b => b.2 ≤ a.2) →
      (sortScoredAux acc l).Pairwise (fun a b => b.2 ≤ a.2) := by
  intro l
  induction l with
  | nil => intro acc h; exact h
  | cons x xs ih => intro acc h; exact ih _ (insertScored_sorted h)

theorem sortByCountDesc_perm (l : List (RecipeDoc × Nat)) : (sortByCountDesc l).Perm l :=
  sortScoredAux_perm l []

theorem sortByCountDesc_sorted (l : List (RecipeDoc × Nat)) :
    (sortByCountDesc l).Pairwise (fun a b => b.2 ≤ a.2) :=
  sortScoredAux_sorted l [] List.Pairwise.nil

theorem mem_scoreFilter {normalized : List Str} {docs : List RecipeDoc} {e : RecipeDoc × Nat}
    (h : e ∈ scoreFilter normalized docs) : e.2 = matchCount normalized e.1 := by
  unfold scoreFilter at h
  obtain ⟨d, _, hde⟩ := List.mem_map.mp (List.mem_filter.mp h).1
  cases hde
  rfl

/-- The common sorted-output shape shared by `_findRecipeByIngredient` and
`_findRecipeByIngredientWithinRecipes` (which short-circuit on an empty
scored list). -/
theorem rank_branch_spec (normalized : List Str) (docs : List RecipeDoc) :
    ∃ pairs : List (RecipeDoc × Nat),
      (if (scoreFilter normalized docs).isEmpty = true then (Except.ok [] : Except Str (List ID))
        else Except.ok ((sortByCountDesc (scoreFilter normalized docs)).map (fun e => e.1._id))) =
        .ok (pairs.map (fun e => e.1._id)) ∧
      pairs.Perm (scoreFilter normalized docs) ∧
      pairs.Pairwise (fun a b => b.2 ≤ a.2) ∧
      ∀ e ∈ pairs, e.2 = matchCount normalized e.1 := by
  cases hsc : (scoreFilter normalized docs).isEmpty with
  | true =>
    have hnil : scoreFilter normalized docs = [] := by
      cases hl : scoreFilter normalized docs with
      | nil => rfl
      | cons a l => rw [hl] at hsc; exact absurd hsc (by simp)
    refine ⟨[], by simp, by rw [hnil], List.Pairwise.nil, by simp⟩
  | false =>
    refine ⟨sortByCountDesc (scoreFilter normalized docs), by simp, sortByCountDesc_perm _,
      sortByCountDesc_sorted _, ?_⟩
    intro e he
    exact mem_scoreFilter ((sortByCountDesc_perm _).mem_iff.mp he)

/-- The sorted-output shape of the two `_filterIngredientAndSearch`
variants (no empty-scored short circuit). -/
theorem rank_plain_spec (normalized : List Str) (docs : List RecipeDoc) :
    ∃ pairs : List (RecipeDoc × Nat),
      (sortByCountDesc (scoreFilter normalized docs)).map (fun e => e.1._id) =
        pairs.map (fun e => e.1._id) ∧
      pairs.Perm (scoreFilter normalized docs) ∧
      pairs.Pairwise (fun a b => b.2 ≤ a.2) ∧
      ∀ e ∈ pairs, e.2 = matchCount normalized e.1 := by
  refine ⟨sortByCountDesc (scoreFilter normalized docs), rfl, sortByCountDesc_perm _,
    sortByCountDesc_sorted _, ?_⟩
  intro e he
  exact mem_scoreFilter ((sortByCountDesc_perm _).mem_iff.mp he)

theorem isEmpty_false_of_ne_nil {l : List α} (h : l ≠ []) : l.isEmpty = false := by
  cases l with
  | nil => exact absurd rfl h
  | cons a as => rfl

theorem filter_false_of (l : List RecipeDoc) (p : RecipeDoc → Bool) (h : ∀ d, p d = false) :
    l.filter p = [] := by
  induction l with
  | nil => rfl
  | cons a as ih =>
    rw [List.filter_cons, h a]
    simpa using ih

/-- C6: each ingredient-based search variant returns exactly the candidate
recipes of strictly positive `matchCount` (as the permutation property for
the scored candidate list), ordered so that a recipe with a strictly
greater `matchCount` never appears after one with a smaller count (the
returned id list is the image of a count-sorted scored list). -/
theorem ingredientSearch_exact_and_ranked :
    (∀ (s : RState) (names : List Str), names ≠ [] →
      ∃ pairs : List (RecipeDoc × Nat),
        _findRecipeByIngredient names s = .ok (pairs.map (fun e => e.1._id)) ∧
        pairs.Perm (scoreFilter (names.map lowerStr) s.recipes) ∧
        pairs.Pairwise (fun a b => b.2 ≤ a.2) ∧
        ∀ e ∈ pairs, e.2 = matchCount (names.map lowerStr) e.1) ∧
    (∀ (s : RState) (names : List Str) (rs : List ID), names ≠ [] →
      ∃ pairs : List (RecipeDoc × Nat),
        _findRecipeByIngredientWithinRecipes names rs s = .ok (pairs.map (fun e => e.1._id)) ∧
        pairs.Perm (scoreFilter (names.map lowerStr) (s.recipes.filter (fun d => rs.contains d._id))) ∧
        pairs.Pairwise (fun a b => b.2 ≤ a.2) ∧
        ∀ e ∈ pairs, e.2 = matchCount (names.map lowerStr) e.1) ∧
    (∀ (s : RState) (q : Str) (names : List Str), q ≠ [] → trimStr q ≠ [] → names ≠ [] →
      ∃ pairs : List (RecipeDoc × Nat),
        _filterIngredientAndSearch q names s = .ok (pairs.map (fun e => e.1._id)) ∧
        pairs.Perm (scoreFilter (names.map lowerStr)
          (s.recipes.filter (fun d => regexSearch (parseRegex (lowerStr q)) d.title))) ∧
        pairs.Pairwise (fun a b => b.2 ≤ a.2) ∧
        ∀ e ∈ pairs, e.2 = matchCount (names.map lowerStr) e.1) ∧
    (∀ (s : RState) (rs : List ID) (q : Str) (names : List Str),
      q ≠ [] → trimStr q ≠ [] → names ≠ [] →
      ∃ pairs : List (RecipeDoc × Nat),
        _filterIngredientAndSearchWithinRecipes rs q names s = .ok (pairs.map (fun e => e.1._id)) ∧
        pairs.Perm (scoreFilter (names.map lowerStr)
          (s.recipes.filter (fun d => rs.contains d._id && regexSearch (parseRegex (lowerStr q)) d.title))) ∧
        pairs.Pairwise (fun a b => b.2 ≤ a.2) ∧
        ∀ e ∈ pairs, e.2 = matchCount (names.map lowerStr) e.1) := by
  refine ⟨?_, ?_, ?_, ?_⟩
  · intro s names hne
    unfold _findRecipeByIngredient
    rw [isEmpty_false_of_ne_nil hne, if_neg (by simp)]
    exact rank_branch_spec (names.map lowerStr) s.recipes
  · intro s names rs hne
    unfold _findRecipeByIngredientWithinRecipes
    rw [isEmpty_false_of_ne_nil hne, if_neg (by simp)]
    cases rs with
    | nil =>
      refine ⟨[], by simp, ?_, List.Pairwise.nil, by simp⟩
      rw [filter_false_of s.recipes (fun d => (([] : List ID)).contains d._id) (fun d => rfl)]
      rfl
    | cons a as =>
      rw [if_neg (by simp)]
      exact rank_branch_spec (names.map lowerStr)
        (s.recipes.filter (fun d => (a :: as).contains d._id))
  · intro s q names hq1 hq2 hne
    unfold _filterIngredientAndSearch
    rw [isEmpty_false_of_ne_nil hq1, isEmpty_false_of_ne_nil hq2, if_neg (by simp),
      isEmpty_false_of_ne_nil hne, if_neg (by simp)]
    obtain ⟨pairs, h1, h2, h3, h4⟩ := rank_plain_spec (names.map lowerStr)
      (s.recipes.filter (fun d => regexSearch (parseRegex (lowerStr q)) d.title))
    exact ⟨pairs, congrArg (@Except.ok Str (List ID)) h1, h2, h3, h4⟩
  · intro s rs q names hq1 hq2 hne
    unfold _filterIngredientAndSearchWithinRecipes
    rw [isEmpty_false_of_ne_nil hq1, isEmpty_false_of_ne_nil hq2, if_neg (by simp),
      isEmpty_false_of_ne_nil hne, if_neg (by simp)]
    cases rs with
    | nil =>
      refine ⟨[], by simp, ?_, List.Pairwise.nil, by simp⟩
      rw [filter_false_of s.recipes (fun d => (([] : List ID)).contains d._id && regexSearch (parseRegex (lowerStr q)) d.title) (fun d => rfl)]
      rfl
    | cons a as =>
      rw [if_neg (by simp)]
      obtain ⟨pairs, h1, h2, h3, h4⟩ := rank_plain_spec (names.map lowerStr)
        (s.recipes.filter (fun d => (a :: as).contains d._id && regexSearch (parseRegex (lowerStr q)) d.title))
      exact ⟨pairs, congrArg (@Except.ok Str (List ID)) h1, h2, h3, h4⟩

/-- Witness for C6 at `sOne` with the non-empty name set `["Flour"]`. -/
theorem ingredientSearch_exact_and_ranked_witness :
    ([str "Flour"] ≠ ([] : List Str)) ∧
    (∃ pairs : List (RecipeDoc × Nat),
      _findRecipeByIngredient [str "Flour"] sOne = .ok (pairs.map (fun e => e.1._id)) ∧
      pairs.Perm (scoreFilter ([str "Flour"].map lowerStr) sOne.recipes) ∧
      pairs.Pairwise (fun a b => b.2 ≤ a.2) ∧
      ∀ e ∈ pairs, e.2 = matchCount ([str "Flour"].map lowerStr) e.1) :=
  ⟨by simp, ingredientSearch_exact_and_ranked.1 sOne [str "Flour"] (by simp)⟩

/-!  ## C7: `$regex` versus plain substring  -/

/-- The PCRE metacharacters (as used by MongoDB's `$regex`). -/
def isRegexMeta (c : Char) : Bool :=
  c == '.' || c == '*' || c == '+' || c == '?' || c == '(' || c == ')' || c == '[' ||
  c == ']' || c == '\\' || c == '^' || c == '$' || c == '|' ||
  c == Char.ofNat 123 || c == Char.ofNat 125

theorem lowerChar_not_meta {c : Char} (h : isRegexMeta c = false) :
    isRegexMeta (lowerChar c) = false := by
  unfold lowerChar
  cases hf : upperLower.find? (fun p => p.1 == c) with
  | none => exact h
  | some p =>
    have hp : p ∈ upperLower := List.mem_of_find?_eq_some hf
    have hall : ∀ q ∈ upperLower, isRegexMeta q.2 = false := by decide
    exact hall p hp

theorem parseRegex_lit : ∀ {l : Str}, (∀ c ∈ l, (c == '.') = false) →
    parseRegex l = l.map RTok.lit := by
  intro l
  induction l with
  | nil => intro _; rfl
  | cons a as ih =>
    intro h
    have h1 : (a == '.') = false := h a (List.mem_cons_self a as)
    have h2 := ih (fun c hc => h c (List.mem_cons_of_mem a hc))
    simp only [parseRegex, List.map] at h2 ⊢
    rw [h1, h2]
    simp

theorem matchHere_lit : ∀ (p t : Str), matchHere (p.map RTok.lit) t = prefixMatch p (lowerStr t) := by
  intro p
  induction p with
  | nil => intro t; rfl
  | cons c cs ih =>
    intro t
    cases t with
    | nil => rfl
    | cons d ds =>
      show (tokMatches (RTok.lit c) d && matchHere (cs.map RTok.lit) ds) =
        (c == lowerChar d && prefixMatch cs (lowerStr ds))
      rw [ih ds]
      rfl

theorem suffixes_map (f : Char → Char) :
    ∀ (t : Str), suffixes (t.map f) = (suffixes t).map (List.map f) := by
  intro t
  induction t with
  | nil => rfl
  | cons c cs ih => simp [suffixes, List.map, ih]

theorem regexSearch_lit (p t : Str) :
    regexSearch (p.map RTok.lit) t = containsSub p (lowerStr t) := by
  unfold regexSearch containsSub lowerStr
  rw [suffixes_map, List.any_map]
  simp only [matchHere_lit]
  rfl

/-- C7 (amended): `_search` feeds the lowercased query to `$regex`
unescaped.  For queries containing no regex metacharacter this coincides
with the claimed case-insensitive substring test on titles; for queries
with metacharacters it does not (see the counterexample with query "."). -/
theorem search_substring_for_metafree_queries (s : RState) (q : Str) (hq1 : q ≠ [])
    (hq2 : trimStr q ≠ []) (hmeta : ∀ c ∈ q, isRegexMeta c = false) :
    _search q s = .ok ((s.recipes.filter
      (fun d => containsSub (lowerStr q) (lowerStr d.title))).map (fun d => d._id)) := by
  unfold _search
  rw [isEmpty_false_of_ne_nil hq1, isEmpty_false_of_ne_nil hq2, if_neg (by simp)]
  have hdot : ∀ c ∈ lowerStr q, (c == '.') = false := by
    intro c hc
    obtain ⟨c0, hc0, rfl⟩ := List.mem_map.mp hc
    have h2 := lowerChar_not_meta (hmeta c0 hc0)
    cases hd : (lowerChar c0 == '.') with
    | false => rfl
    | true =>
      have h3 : lowerChar c0 = '.' := eq_of_beq hd
      rw [h3] at h2
      exact absurd h2 (by decide)
  dsimp only
  rw [parseRegex_lit hdot]
  simp only [regexSearch_lit]

/-- Witness for C7's amended theorem: the metacharacter-free query "cake"
on `sOne` returns exactly the recipe whose title "Cake" contains it
case-insensitively. -/
theorem search_substring_for_metafree_queries_witness :
    (str "cake" ≠ ([] : Str) ∧ trimStr (str "cake") ≠ [] ∧
      ∀ c ∈ str "cake", isRegexMeta c = false) ∧
    _search (str "cake") sOne = .ok ((sOne.recipes.filter
      (fun d => containsSub (lowerStr (str "cake")) (lowerStr d.title))).map (fun d => d._id)) :=
  ⟨⟨by decide, by decide, by decide⟩,
    search_substring_for_metafree_queries sOne (str "cake") (by decide) (by decide) (by decide)⟩

/-- C7 counterexample to the claim as stated: on `sOne`, the query "."
(a string containing the character '.') returns recipe 0 titled "Cake",
although "." is not a substring of that title in any case folding — the
query is interpreted as a regular expression, not as a plain substring. -/
theorem search_not_plain_substring_counterexample :
    _search (str ".") sOne = .ok [0] ∧
    containsSub (lowerStr (str ".")) (lowerStr cakeDoc.title) = false :=
  ⟨rfl, rfl⟩
